import Mathlib

/-
Verification of the AZH_lid reactor TCP server core.

This file shallowly embeds the parts of the C++ source that the checked
properties speak about:
  - the size-classed memory pool          (src/memory/memory_pool.cpp)
  - chunks and the input/output buffers   (src/memory/chunk.hpp, src/net/TcpServer.hpp
                                           buffer section, src/memory/data_buf.hpp)
  - the TcpConnection state machine       (src/net/Epoll.hpp, TcpConnection section)
  - the loop thread pool and dispatch     (src/net/TcpServer.cpp, EventLoopThreadPool)
  - the acceptor loop                     (src/net/Acceptor.cpp)
  - the idle-timeout wheel                (src/time/ConnectionTimeoutManager.cpp)
  - EventLoop channel registry sync       (EventLoop::update_channel, Channel::disable_all)

Machine integers are modelled as Nat or Int (sizes in the source are size_t
and never near overflow on the checked paths; int parameters keep Int so the
sign checks of the source stay visible).  Syscalls and the system allocator
are oracles: lists of results or Option-valued parameters.  Data bytes are
not tracked, only the capacity / length / head bookkeeping, which is the
only thing the control flow of the embedded functions reads.
-/

namespace AZH

/-! ## Memory pool (src/memory/memory_pool.cpp) -/

/-- The six predefined chunk size classes MEM_SIZES. -/
def MEM_SIZES : List Nat := [4096, 16384, 65536, 262144, 1048576, 4194304]

/-- MemoryPool::find_suitable_size: smallest class with requested_size ≤ class, 0 if none. -/
def find_suitable_size (requested_size : Nat) : Nat :=
  (MEM_SIZES.find? (fun s => requested_size ≤ s)).getD 0

/-- MemoryPool::is_supported_size. -/
def is_supported_size (s : Nat) : Bool := MEM_SIZES.contains s

/-- Pool state: per-class free-list lengths, current_usage_bytes_, max_capacity_bytes_.
The free lists only matter through their length, so they are counts. -/
structure PoolState where
  free : List (Nat × Nat)
  usage : Nat
  maxCap : Nat
  deriving Repr, DecidableEq

/-- Number of chunks on the free list of class cs. -/
def freeCount (st : PoolState) (cs : Nat) : Nat :=
  (((st.free.find? (fun p => p.1 = cs))).map Prod.snd).getD 0

/-- Take one chunk off the free list of class cs. -/
def decFree (free : List (Nat × Nat)) (cs : Nat) : List (Nat × Nat) :=
  free.map (fun p => if p.1 = cs then (p.1, p.2 - 1) else p)

/-- Put one chunk back on the free list of class cs. -/
def incFree (free : List (Nat × Nat)) (cs : Nat) : List (Nat × Nat) :=
  free.map (fun p => if p.1 = cs then (p.1, p.2 + 1) else p)

/-- MemoryPool::alloc_chunk.  Returns the capacity of the chunk handed out (none on
failure or on the MemoryPoolExhaustedError throw).  The fast path pops the free
list and bumps usage with NO capacity-cap check; only the slow path (empty free
list, fresh system allocation) checks the cap.  The post-allocation recheck under
the lock collapses with the first check in this sequential model, and the system
allocation of the slow path is assumed to succeed. -/
def alloc_chunk (st : PoolState) (n : Nat) : Option Nat × PoolState :=
  if n = 0 then (none, st)
  else if find_suitable_size n = 0 then (none, st)
  else if 0 < freeCount st (find_suitable_size n) then
    (some (find_suitable_size n),
     { st with free := decFree st.free (find_suitable_size n),
               usage := st.usage + find_suitable_size n })
  else if st.maxCap < st.usage + find_suitable_size n then
    (none, st)
  else
    (some (find_suitable_size n), { st with usage := st.usage + find_suitable_size n })

/-- MemoryPool::retrieve, taking the capacity of the returned chunk.  Capacity 0 and
non-class capacities are freed outright without touching the counters; class
capacities go back on the free list and usage is decremented (clamped at 0 as in
the source). -/
def retrieve (st : PoolState) (cap : Nat) : PoolState :=
  if cap = 0 then st
  else if is_supported_size cap = false then st
  else
    { st with free := incFree st.free cap,
              usage := if cap ≤ st.usage then st.usage - cap else 0 }

/-- MemoryPool::set_max_capacity. -/
def set_max_capacity (st : PoolState) (max_bytes : Nat) : PoolState :=
  { st with maxCap := max_bytes }

/-- Pool state after the constructor: initialize_pool preallocates 200 / 50 / 20 /
10 / 5 / 2 chunks of the six classes; default cap 128 MiB; usage 0. -/
def initialPool : PoolState :=
  { free := [(4096, 200), (16384, 50), (65536, 20), (262144, 10), (1048576, 5), (4194304, 2)],
    usage := 0,
    maxCap := 128 * 1024 * 1024 }

/-- Client-visible pool operations.  retrieveChunk k returns the k-th chunk of the
list of chunks currently handed out and not yet returned (callers only ever
return chunks they obtained from the pool). -/
inductive PoolOp where
  | alloc (n : Nat)
  | retrieveChunk (k : Nat)
  | setMax (m : Nat)
  deriving Repr, DecidableEq

/-- One pool operation over the pool state paired with the list of capacities of
chunks handed out and not yet returned. -/
def poolStep : PoolState × List Nat → PoolOp → PoolState × List Nat
  | (st, out), .alloc n =>
      match alloc_chunk st n with
      | (some cs, st2) => (st2, cs :: out)
      | (none, st2) => (st2, out)
  | (st, out), .retrieveChunk k =>
      match out.get? k with
      | some cap => (retrieve st cap, out.eraseIdx k)
      | none => (st, out)
  | (st, out), .setMax m => (set_max_capacity st m, out)

/-- Run a sequence of pool operations from the freshly constructed pool. -/
def runPool (ops : List PoolOp) : PoolState × List Nat :=
  ops.foldl poolStep (initialPool, [])

/-! ## Chunks and buffers (src/memory/chunk.hpp, buffer section of src/net/TcpServer.hpp) -/

/-- Chunk bookkeeping: capacity / length / head.  The byte array is not modelled;
none of the embedded control flow depends on the byte values. -/
structure Chunk where
  capacity : Nat
  length : Nat
  head : Nat
  deriving Repr, DecidableEq

/-- BufferBase::DEFAULT_BUFFER_SIZE (an int in the source). -/
def DEFAULT_BUFFER_SIZE : Int := 4096

/-- Chunk::adjust: move the live bytes to offset 0 (only when head is nonzero). -/
def Chunk.adjust (c : Chunk) : Chunk :=
  if c.head ≠ 0 then { c with head := 0 } else c

/-- Chunk::pop: drop len bytes from the front; clearing entirely when
len ≥ length. -/
def Chunk.popBytes (c : Chunk) (len : Nat) : Chunk :=
  if c.length ≤ len then { c with length := 0, head := 0 }
  else { c with head := c.head + len, length := c.length - len }

/-- Allocation oracle used by the buffer code: the capacity of the chunk the pool
hands back for a request of n bytes, or none on failure.  Instantiated with
poolAllocCap for concrete runs. -/
def poolAllocCap (n : Nat) : Option Nat :=
  if n = 0 then none
  else if find_suitable_size n = 0 then none
  else some (find_suitable_size n)

/-- InputBuffer::expand_buffer: request a chunk of size length + needed_size, copy
the live bytes to offset 0, return the old chunk to the pool and swap.  On
allocation failure the buffer is left unchanged and false is returned. -/
def expand_buffer (alloc : Nat → Option Nat) (c : Chunk) (needed_size : Nat) :
    Bool × Option Chunk :=
  match alloc (c.length + needed_size) with
  | none => (false, some c)
  | some cap => (true, some { capacity := cap, length := c.length, head := 0 })

/-- InputBuffer::ensure_space_available.  Rejects non-positive and over-1-MiB
requests, allocates lazily on first use (max of the request and the default
slab), compacts when head is nonzero, and otherwise expands by
additional - available.  The int-range guard of the source
(needed > INT_MAX) is kept even though needed ≤ 1 MiB makes it dead. -/
def ensure_space_available (alloc : Nat → Option Nat) (buf : Option Chunk)
    (additional_size : Int) : Bool × Option Chunk :=
  if additional_size ≤ 0 then (false, buf)
  else if 1048576 < additional_size then (false, buf)
  else
    match buf with
    | none =>
        match alloc (max additional_size DEFAULT_BUFFER_SIZE).toNat with
        | some cap => (true, some { capacity := cap, length := 0, head := 0 })
        | none => (false, none)
    | some c0 =>
        if additional_size.toNat ≤ c0.adjust.capacity - c0.adjust.length then
          (true, some c0.adjust)
        else if 2147483647 <
            additional_size.toNat - (c0.adjust.capacity - c0.adjust.length) then
          (false, some c0.adjust)
        else
          expand_buffer alloc c0.adjust
            (additional_size.toNat - (c0.adjust.capacity - c0.adjust.length))

/-- Result of one read(2) or accept-style syscall attempt for the buffer code:
ok n is a return of n bytes (n = 0 is end of file); the rest are the errno
classes the source distinguishes. -/
inductive SysRes where
  | ok (n : Nat)
  | eintr
  | eagain
  | ewouldblock
  | err
  deriving Repr, DecidableEq

/-- The do/while EINTR retry loop around read(2): first non-EINTR attempt wins;
none when the attempt stream is exhausted while still interrupted. -/
def readLoop : List SysRes → Option SysRes
  | [] => none
  | .eintr :: rest => readLoop rest
  | r :: _ => some r

/-- Observable outcome of InputBuffer::read_from_fd: the returned int, the buffer
afterwards, the free space at the moment the read syscall was issued, and the
size cap passed to read (both 0 when no syscall was issued). -/
structure ReadOutcome where
  ret : Int
  buf : Option Chunk
  freeAtRead : Nat
  toRead : Nat
  deriving Repr, DecidableEq

/-- Second half of InputBuffer::read_from_fd, once a chunk with ensured space is
in hand: compute available space (error when none), cap the read at 64 KiB,
issue the retried syscall and map its result to the returned int. -/
def read_with_buffer (c : Chunk) (io : List SysRes) : Option ReadOutcome :=
  if c.capacity - c.length = 0 then
    some { ret := -1, buf := some c, freeAtRead := 0, toRead := 0 }
  else
    match readLoop io with
    | none => none
    | some (.ok n) =>
        if 0 < n then
          some { ret := (n : Int), buf := some { c with length := c.length + n },
                 freeAtRead := c.capacity - c.length,
                 toRead := min (c.capacity - c.length) 65536 }
        else
          some { ret := 0, buf := some c, freeAtRead := c.capacity - c.length,
                 toRead := min (c.capacity - c.length) 65536 }
    | some .eintr => none
    | some .eagain =>
        some { ret := 0, buf := some c, freeAtRead := c.capacity - c.length,
               toRead := min (c.capacity - c.length) 65536 }
    | some .ewouldblock =>
        some { ret := 0, buf := some c, freeAtRead := c.capacity - c.length,
               toRead := min (c.capacity - c.length) 65536 }
    | some .err =>
        some { ret := -1, buf := some c, freeAtRead := c.capacity - c.length,
               toRead := min (c.capacity - c.length) 65536 }

/-- InputBuffer::read_from_fd.  none only when the attempt stream runs out while
every attempt is EINTR (the source would still be retrying). -/
def read_from_fd (alloc : Nat → Option Nat) (buf : Option Chunk) (fd : Int)
    (io : List SysRes) : Option ReadOutcome :=
  if fd < 0 then some { ret := -1, buf := buf, freeAtRead := 0, toRead := 0 }
  else
    match ensure_space_available alloc buf DEFAULT_BUFFER_SIZE with
    | (false, buf2) => some { ret := -1, buf := buf2, freeAtRead := 0, toRead := 0 }
    | (true, none) => some { ret := -1, buf := none, freeAtRead := 0, toRead := 0 }
    | (true, some c) => read_with_buffer c io

/-- Free space of an input chunk (0 when unallocated); used to state the ensured
space bound of read_from_fd. -/
def input_free_space : Option Chunk → Nat
  | none => 0
  | some c => c.capacity - c.length

/-- Result of BufferBase::pop: ok with the new buffer, or raised when the source
throws std::runtime_error; the raised case carries the (unchanged) buffer state
at the throw. -/
inductive PopResult where
  | ok (buf : Option Chunk)
  | raised (buf : Option Chunk)
  deriving Repr, DecidableEq

/-- BufferBase::pop.  A chunk-less buffer and a non-positive length are logged
no-ops; a length beyond the buffered bytes throws before any mutation; otherwise
the chunk pops and, when emptied, is returned to the pool and the pointer
nulled. -/
def buffer_pop (buf : Option Chunk) (len : Int) : PopResult :=
  match buf with
  | none => .ok none
  | some c =>
      if len ≤ 0 then .ok (some c)
      else if c.length < len.toNat then .raised (some c)
      else
        let c2 := c.popBytes len.toNat
        if c2.length = 0 then .ok none else .ok (some c2)

/-- OutputBuffer::ensure_capacity.  Like the input variant but with the extra
1 MiB MAX_BUFFER_SIZE ceiling on the grown total size.  The size_t overflow
guard of the source cannot fire over Nat. -/
def ensure_capacity (alloc : Nat → Option Nat) (buf : Option Chunk)
    (additional_size : Int) : Bool × Option Chunk :=
  if additional_size ≤ 0 then (false, buf)
  else if 1048576 < additional_size then (false, buf)
  else
    match buf with
    | none =>
        match alloc (max additional_size DEFAULT_BUFFER_SIZE).toNat with
        | some cap => (true, some { capacity := cap, length := 0, head := 0 })
        | none => (false, none)
    | some c0 =>
        if additional_size.toNat ≤ c0.adjust.capacity - c0.adjust.length then
          (true, some c0.adjust)
        else if 1048576 < c0.adjust.length + additional_size.toNat then
          (false, some c0.adjust)
        else
          match alloc (c0.adjust.length + additional_size.toNat) with
          | none => (false, some c0.adjust)
          | some cap =>
              (true, some { capacity := cap, length := c0.adjust.length, head := 0 })

/-- OutputBuffer::write_to_buf: 0 on success, -1 on failure (null data is not
modelled; callers pass valid pointers).  Appends len bytes after ensuring
capacity. -/
def write_to_buf (alloc : Nat → Option Nat) (buf : Option Chunk) (len : Int) :
    Int × Option Chunk :=
  if len ≤ 0 then (0, buf)
  else if 1048576 < len then (-1, buf)
  else
    match ensure_capacity alloc buf len with
    | (false, buf2) => (-1, buf2)
    | (true, none) => (-1, none)
    | (true, some c) => (0, some { c with length := c.length + len.toNat })

/-! ## TcpConnection state machine (TcpConnection section of src/net/Epoll.hpp) -/

/-- TcpConnection::State. -/
inductive State where
  | kConnecting
  | kConnected
  | kDisconnecting
  | kDisconnected
  deriving Repr, DecidableEq

/-- Connection observables: the state atom plus counters for user close-callback
invocations and ::close(connfd_) calls. -/
structure Conn where
  state : State
  closeCbCount : Nat
  fdCloseCount : Nat
  deriving Repr, DecidableEq

/-- TcpConnection::handle_close: compare-and-swap kConnected → kDisconnected; any
other initial state returns immediately.  On success the channel is disabled and
dropped, the close callback fires once and the descriptor is closed once. -/
def handle_close (c : Conn) : Conn :=
  if c.state = .kConnected then
    { state := .kDisconnected,
      closeCbCount := c.closeCbCount + 1,
      fdCloseCount := c.fdCloseCount + 1 }
  else c

/-- TcpConnection::shutdownInLoop: no-op unless kConnected; stores kDisconnecting
(and half-closes the write side with shutdown(SHUT_WR) when the output buffer is
empty, which is not a descriptor close and is not counted here). -/
def shutdownInLoop (c : Conn) : Conn :=
  if c.state = .kConnected then { c with state := .kDisconnecting } else c

/-- TcpConnection::connect_established: sets up the channel, enables read, ties
self, and stores kConnected. -/
def connect_established (c : Conn) : Conn :=
  { c with state := .kConnected }

/-- Connection state after construction: state_ is initialized to kConnecting
(src/unnamed/part_000, TcpConnection.hpp). -/
def initialConn : Conn :=
  { state := .kConnecting, closeCbCount := 0, fdCloseCount := 0 }

/-- Events an established connection can serve on its loop.  close covers every
path that collapses to handle_close (read EOF, read error, EPOLLERR / EPOLLHUP,
EPOLLRDHUP, and write errors through handle_error); write is a handle_write
drain that succeeds, which never touches the state atom. -/
inductive ConnEvent where
  | shutdown
  | close
  | write
  deriving Repr, DecidableEq

/-- Serve one event. -/
def connStep (c : Conn) : ConnEvent → Conn
  | .shutdown => shutdownInLoop c
  | .close => handle_close c
  | .write => c

/-- Serve a sequence of events. -/
def connRun (evs : List ConnEvent) (c : Conn) : Conn :=
  evs.foldl connStep c

/-- Position of each state in the lifecycle order. -/
def stateRank : State → Nat
  | .kConnecting => 0
  | .kConnected => 1
  | .kDisconnecting => 2
  | .kDisconnected => 3

/-- The transition edges listed by the specification DAG: the chain
Connecting → Connected → Disconnecting → Disconnected plus the early-failure
edge Connecting → Disconnected. -/
def listedEdge : State → State → Bool
  | .kConnecting, .kConnected => true
  | .kConnected, .kDisconnecting => true
  | .kDisconnecting, .kDisconnected => true
  | .kConnecting, .kDisconnected => true
  | _, _ => false

/-- The transition edges the embedded code actually takes. -/
def takenEdge : State → State → Bool
  | .kConnecting, .kConnected => true
  | .kConnected, .kDisconnecting => true
  | .kConnected, .kDisconnected => true
  | _, _ => false

/-! ## sendInLoop (TcpConnection section of src/net/Epoll.hpp) -/

/-- Outcome of the direct ::write attempted by sendInLoop when the output buffer
is empty: wrote n bytes, failed with EAGAIN, or failed with another errno. -/
inductive WriteRes where
  | wrote (n : Nat)
  | wouldBlock
  | failed
  deriving Repr, DecidableEq

/-- The connection pieces sendInLoop touches. -/
structure SendState where
  conn : Conn
  outBuf : Option Chunk
  writeEnabled : Bool
  deriving Repr, DecidableEq

/-- Buffered length of an optional chunk (BufferBase::length, 0 when null). -/
def bufLength : Option Chunk → Nat
  | none => 0
  | some c => c.length

/-- TcpConnection::sendInLoop.  Tries a direct write when the output buffer is
empty; a non-EAGAIN write error collapses to handle_close via handle_error;
the unwritten tail goes through OutputBuffer::write_to_buf, whose int result the
source DISCARDS, and the write event is enabled.  The second component surfaces
the discarded write_to_buf return value (none when write_to_buf was not
called). -/
def sendInLoop (alloc : Nat → Option Nat) (s : SendState) (len : Int)
    (directWrite : WriteRes) : SendState × Option Int :=
  if s.conn.state ≠ .kConnected then (s, none)
  else if bufLength s.outBuf = 0 then
    match directWrite with
    | .failed => ({ s with conn := handle_close s.conn }, none)
    | .wouldBlock =>
        if 0 < len then
          let r := write_to_buf alloc s.outBuf len
          ({ s with outBuf := r.2, writeEnabled := true }, some r.1)
        else (s, none)
    | .wrote n =>
        if (n : Int) < len then
          let r := write_to_buf alloc s.outBuf (len - (n : Int))
          ({ s with outBuf := r.2, writeEnabled := true }, some r.1)
        else (s, none)
  else
    if 0 < len then
      let r := write_to_buf alloc s.outBuf len
      ({ s with outBuf := r.2, writeEnabled := true }, some r.1)
    else (s, none)

/-! ## Loop pool and dispatch (src/unnamed/part_004 EventLoopThreadPool,
src/net/TcpServer.cpp) -/

/-- TcpServer constructor: io_thread_count_ = std::max(0, io_thread_count). -/
def server_io_thread_count (io_thread_count : Int) : Int :=
  max 0 io_thread_count

/-- EventLoopThreadPool constructor: thread_count_ = thread_count > 0 ?
thread_count : std::thread::hardware_concurrency(); then clamped to 1 only when
still negative. -/
def pool_thread_count_ctor (thread_count : Int) (hardware_concurrency : Nat) : Int :=
  let c : Int := if 0 < thread_count then thread_count else (hardware_concurrency : Int)
  if c < 0 then 1 else c

/-- EventLoopThreadPool::start: spawns thread_count_ worker threads, each running
its own EventLoop; none when thread_count_ ≤ 0.  Returns the number of loops in
threads_. -/
def pool_threads_after_start (thread_count : Int) : Nat :=
  if thread_count ≤ 0 then 0 else thread_count.toNat

/-- EventLoopThreadPool::get_next_loop: nullptr when threads_ is empty, otherwise
the loop at the round-robin index. -/
def pool_get_next_loop (threads : Nat) (next_index : Nat) : Option Nat :=
  if threads = 0 then none else some (next_index % threads)

/-- A loop reference: the base loop or the i-th pool worker loop. -/
inductive LoopRef where
  | base
  | worker (i : Nat)
  deriving Repr, DecidableEq

/-- TcpServer::get_next_loop: the base loop when the pool has no threads or hands
back null, otherwise the pool loop. -/
def server_get_next_loop (threads : Nat) (next_index : Nat) : LoopRef :=
  if threads = 0 then .base
  else
    match pool_get_next_loop threads next_index with
    | none => .base
    | some i => .worker i

/-! ## Acceptor loop (src/net/Acceptor.cpp, Acceptor::do_accept) -/

/-- The errno classes the accept loop distinguishes. -/
inductive AcceptErrno where
  | eintr
  | eagain
  | ewouldblock
  | emfile
  | enfile
  | other
  deriving Repr, DecidableEq

/-- Result of one accept-family syscall. -/
inductive AcceptRes where
  | conn (fd : Nat)
  | fail (e : AcceptErrno)
  deriving Repr, DecidableEq

/-- Observable actions of the accept loop. -/
inductive AcceptAction where
  | dispatch (fd : Nat)
  | closeNoLoop (fd : Nat)
  | closeIdleFd
  | closeRescued (fd : Nat)
  | reopenIdleFd
  | logBreak
  deriving Repr, DecidableEq

/-- Acceptor::do_accept over the stream of accept syscall results.  hasLoop is
whether server_->get_next_loop() yields a loop.  EINTR retries; EAGAIN and
EWOULDBLOCK leave the loop; EMFILE and ENFILE close the idle fd, issue a plain
accept (consuming the next syscall result; a rescued connection is closed at
once), reopen /dev/null and CONTINUE the loop; any other errno logs and breaks.
An empty stream models the point where no further syscall result is
prescribed. -/
def do_accept (hasLoop : Bool) : List AcceptRes → List AcceptAction
  | [] => []
  | .conn fd :: rest =>
      (if hasLoop then AcceptAction.dispatch fd else AcceptAction.closeNoLoop fd)
        :: do_accept hasLoop rest
  | .fail .eintr :: rest => do_accept hasLoop rest
  | .fail .eagain :: _ => []
  | .fail .ewouldblock :: _ => []
  | .fail .emfile :: [] => [.closeIdleFd, .reopenIdleFd]
  | .fail .emfile :: .conn fd :: rest =>
      .closeIdleFd :: .closeRescued fd :: .reopenIdleFd :: do_accept hasLoop rest
  | .fail .emfile :: .fail _ :: rest =>
      .closeIdleFd :: .reopenIdleFd :: do_accept hasLoop rest
  | .fail .enfile :: [] => [.closeIdleFd, .reopenIdleFd]
  | .fail .enfile :: .conn fd :: rest =>
      .closeIdleFd :: .closeRescued fd :: .reopenIdleFd :: do_accept hasLoop rest
  | .fail .enfile :: .fail _ :: rest =>
      .closeIdleFd :: .reopenIdleFd :: do_accept hasLoop rest
  | .fail .other :: _ => [.logBreak]

/-! ## Idle-timeout wheel (src/time/ConnectionTimeoutManager.cpp) -/

/-- A time-wheel entry: connection id, remaining_ticks, last_activity_time
(a steady-clock timestamp in ms). -/
structure TWEntry where
  id : Nat
  remaining_ticks : Int
  last_activity : Int
  deriving Repr, DecidableEq

/-- Body of ConnectionTimeoutManager::process_timeout_connections over one slot:
null entries are erased; an entry with remaining_ticks > 0 is decremented and
kept; otherwise an entry idle for at least T ms is collected as expired and
erased; all other entries are kept.  Returns (kept, expired) in traversal
order. -/
def process_slot (now T : Int) : List (Option TWEntry) → List TWEntry × List TWEntry
  | [] => ([], [])
  | none :: rest => process_slot now T rest
  | some e :: rest =>
      let r := process_slot now T rest
      if 0 < e.remaining_ticks then
        ({ e with remaining_ticks := e.remaining_ticks - 1 } :: r.1, r.2)
      else if T ≤ now - e.last_activity then
        (r.1, e :: r.2)
      else
        (e :: r.1, r.2)

/-- Per-entry fate on a tick, written from the spec sentence: the entry kept in
the slot (decremented, or unchanged), or none when it leaves the slot. -/
def tw_keep_spec (now T : Int) (e : TWEntry) : Option TWEntry :=
  if 0 < e.remaining_ticks then some { e with remaining_ticks := e.remaining_ticks - 1 }
  else if T ≤ now - e.last_activity then none
  else some e

/-- Per-entry fate on a tick, written from the spec sentence: the entry recorded
as expired, or none when it stays. -/
def tw_expire_spec (now T : Int) (e : TWEntry) : Option TWEntry :=
  if 0 < e.remaining_ticks then none
  else if T ≤ now - e.last_activity then some e
  else none

/-- The wheel pieces one tick of time_wheel_loop touches. -/
structure WheelState where
  current_slot : Nat
  wheel_size : Nat
  slots : List (List (Option TWEntry))
  deriving Repr, DecidableEq

/-- One iteration of ConnectionTimeoutManager::time_wheel_loop: process the
current slot, then advance current_slot_ = (current_slot_ + 1) % wheel_size_.
Returns the new wheel state and the expired entries of this tick. -/
def wheel_tick (st : WheelState) (now T : Int) : WheelState × List TWEntry :=
  let r := process_slot now T (st.slots.getD st.current_slot [])
  ({ st with
      slots := st.slots.set st.current_slot (r.1.map some),
      current_slot := (st.current_slot + 1) % st.wheel_size },
   r.2)

/-! ## EventLoop channel registry (src/unnamed/part_001 EventLoop::update_channel,
src/net/Channel.cpp) -/

/-- The loop-side channel bookkeeping: channels_ keyed by descriptor, and the
kernel notifier interest (epoll) as descriptor ↦ mask. -/
structure LoopReg where
  registry : List Nat
  kernel : List (Nat × Nat)
  deriving Repr, DecidableEq

/-- Epoll::del on the kernel interest set. -/
def kernel_del (k : List (Nat × Nat)) (fd : Nat) : List (Nat × Nat) :=
  k.filter (fun p => p.1 != fd)

/-- Epoll::mod on the kernel interest set: replace the mask stored for fd. -/
def kernel_mod (k : List (Nat × Nat)) (fd mask : Nat) : List (Nat × Nat) :=
  k.map (fun p => if p.1 = fd then (fd, mask) else p)

/-- Mask registered for fd in the kernel interest set. -/
def kernel_lookup (k : List (Nat × Nat)) (fd : Nat) : Option Nat :=
  (k.find? (fun p => p.1 = fd)).map Prod.snd

/-- Channel::disable_all clears the whole in-memory mask before synchronizing. -/
def disable_all_mask : Nat := 0

/-- Membership test of the channels_ registry (unordered_map find against end). -/
def registry_has : List Nat → Nat → Bool
  | [], _ => false
  | x :: t, fd => if x = fd then true else registry_has t fd

/-- EventLoop::update_channel for a channel with descriptor fd and in-memory mask
evs.  Mask 0: Epoll::del then erase from channels_.  Otherwise: when absent,
Epoll::add and insert into channels_ only if the add succeeded (addOk); when
present, Epoll::mod (the kernel mask stays put when the mod fails, modOk =
false, and the failure is only logged). -/
def update_channel (st : LoopReg) (fd evs : Nat) (addOk modOk : Bool) : LoopReg :=
  if evs = 0 then
    { registry := st.registry.filter (fun x => x != fd),
      kernel := kernel_del st.kernel fd }
  else if registry_has st.registry fd then
    if modOk then { st with kernel := kernel_mod st.kernel fd evs } else st
  else
    if addOk then
      { registry := fd :: st.registry, kernel := (fd, evs) :: st.kernel }
    else st

/-! ## Invariants used by the theorems -/

/-- Ghost invariant tying the pool counters to the chunks handed out: usage is the
sum of the outstanding capacities, and every outstanding capacity is a size
class. -/
def poolInv (p : PoolState × List Nat) : Prop :=
  p.1.usage = p.2.sum ∧ ∀ c ∈ p.2, is_supported_size c = true

/-- Invariant of the connection close path: both effect counters stay below two,
agree, and are still zero while the connection is kConnected. -/
def connInv (c : Conn) : Prop :=
  c.closeCbCount ≤ 1 ∧ c.fdCloseCount ≤ 1
    ∧ (c.state = State.kConnected → c.closeCbCount = 0 ∧ c.fdCloseCount = 0)

/-! ## Helper lemmas -/

theorem find_suitable_size_spec (n : Nat) (h : find_suitable_size n ≠ 0) :
    is_supported_size (find_suitable_size n) = true ∧ n ≤ find_suitable_size n := by
  unfold find_suitable_size at *
  cases hf : MEM_SIZES.find? (fun s => n ≤ s) with
  | none => simp [hf] at h
  | some s =>
      have hp := List.find?_some hf
      have hmem := List.mem_of_find?_eq_some hf
      simp only [hf, Option.getD_some]
      have hs : n ≤ s := by simpa using hp
      refine ⟨?_, hs⟩
      have hmem2 : s = 4096 ∨ s = 16384 ∨ s = 65536 ∨ s = 262144 ∨ s = 1048576
          ∨ s = 4194304 := by simpa [MEM_SIZES] using hmem
      rcases hmem2 with rfl | rfl | rfl | rfl | rfl | rfl <;> decide

theorem poolAllocCap_spec (n cap : Nat) (h : poolAllocCap n = some cap) :
    cap = find_suitable_size n ∧ 0 < cap := by
  unfold poolAllocCap at h
  split_ifs at h with h1 h2
  · injection h with h
    exact ⟨h.symm, by omega⟩

theorem Chunk.adjust_head (c : Chunk) : c.adjust.head = 0 := by
  unfold Chunk.adjust
  split_ifs with h
  · rfl
  · omega

theorem Chunk.adjust_capacity (c : Chunk) : c.adjust.capacity = c.capacity := by
  unfold Chunk.adjust
  split_ifs <;> rfl

theorem Chunk.adjust_length (c : Chunk) : c.adjust.length = c.length := by
  unfold Chunk.adjust
  split_ifs <;> rfl

theorem connStep_preserves_inv (c : Conn) (e : ConnEvent) (h : connInv c) :
    connInv (connStep c e) := by
  obtain ⟨h1, h2, h3⟩ := h
  cases e with
  | shutdown =>
      simp only [connStep, shutdownInLoop]
      split_ifs with hs
      · exact ⟨h1, h2, by intro hc; exact absurd hc (by simp)⟩
      · exact ⟨h1, h2, h3⟩
  | close =>
      simp only [connStep, handle_close]
      split_ifs with hs
      · obtain ⟨hz1, hz2⟩ := h3 hs
        refine ⟨?_, ?_, ?_⟩
        · simp [hz1]
        · simp [hz2]
        · intro hc
          simp at hc
      · exact ⟨h1, h2, h3⟩
  | write => exact ⟨h1, h2, h3⟩

theorem connRun_preserves_inv (evs : List ConnEvent) (c : Conn) (h : connInv c) :
    connInv (connRun evs c) := by
  induction evs generalizing c with
  | nil => exact h
  | cons e rest ih => exact ih (connStep c e) (connStep_preserves_inv c e h)

theorem sum_eraseIdx_of_get? (l : List Nat) (k : Nat) (c : Nat) (h : l.get? k = some c) :
    c ≤ l.sum ∧ (l.eraseIdx k).sum = l.sum - c := by
  induction l generalizing k with
  | nil => simp at h
  | cons a t ih =>
      cases k with
      | zero =>
          simp only [List.get?] at h
          injection h with h
          subst h
          simp [List.eraseIdx]
      | succ k =>
          simp only [List.get?] at h
          obtain ⟨hle, hsum⟩ := ih k h
          constructor
          · simp only [List.sum_cons]
            omega
          · simp only [List.eraseIdx, List.sum_cons, hsum]
            omega

theorem mem_of_mem_eraseIdx (l : List Nat) (k : Nat) (x : Nat)
    (h : x ∈ l.eraseIdx k) : x ∈ l := by
  induction l generalizing k with
  | nil => simp [List.eraseIdx] at h
  | cons a t ih =>
      cases k with
      | zero =>
          simp only [List.eraseIdx] at h
          exact List.mem_cons_of_mem a h
      | succ k =>
          simp only [List.eraseIdx] at h
          rcases List.mem_cons.mp h with rfl | h2
          · exact List.mem_cons_self x t
          · exact List.mem_cons_of_mem a (ih k h2)

theorem supported_pos (c : Nat) (h : is_supported_size c = true) : 0 < c := by
  unfold is_supported_size MEM_SIZES at h
  have hmem : c ∈ ([4096, 16384, 65536, 262144, 1048576, 4194304] : List Nat) := by
    simpa using h
  simp at hmem
  rcases hmem with rfl | rfl | rfl | rfl | rfl | rfl <;> decide

theorem alloc_chunk_some_usage (st : PoolState) (n cs : Nat) (st2 : PoolState)
    (h : alloc_chunk st n = (some cs, st2)) :
    is_supported_size cs = true ∧ st2.usage = st.usage + cs := by
  unfold alloc_chunk at h
  split_ifs at h with h1 h2 h3 h4
  · exact absurd h (by simp)
  · exact absurd h (by simp)
  · injection h with ha hb
    injection ha with ha
    subst ha
    subst hb
    exact ⟨(find_suitable_size_spec n h2).1, rfl⟩
  · exact absurd h (by simp)
  · injection h with ha hb
    injection ha with ha
    subst ha
    subst hb
    exact ⟨(find_suitable_size_spec n h2).1, rfl⟩

theorem alloc_chunk_none_state (st : PoolState) (n : Nat) (st2 : PoolState)
    (h : alloc_chunk st n = (none, st2)) : st2 = st := by
  unfold alloc_chunk at h
  split_ifs at h <;> injection h with ha hb
  · exact hb.symm
  · exact hb.symm
  · exact absurd ha (by simp)
  · exact hb.symm
  · exact absurd ha (by simp)

theorem poolStep_preserves_inv (p : PoolState × List Nat) (op : PoolOp)
    (h : poolInv p) : poolInv (poolStep p op) := by
  obtain ⟨st, out⟩ := p
  obtain ⟨hsum, hmem⟩ := h
  cases op with
  | alloc n =>
      simp only [poolStep]
      cases halloc : alloc_chunk st n with
      | mk r st2 =>
          cases r with
          | none =>
              have hst : st2 = st := alloc_chunk_none_state st n st2 halloc
              exact ⟨by simp only [hst]; exact hsum, hmem⟩
          | some cs =>
              obtain ⟨hsup, husage⟩ := alloc_chunk_some_usage st n cs st2 halloc
              refine ⟨?_, ?_⟩
              · simp only [husage, List.sum_cons]
                simp only at hsum
                omega
              · intro c hc
                rcases List.mem_cons.mp hc with rfl | hc2
                · exact hsup
                · exact hmem c hc2
  | retrieveChunk k =>
      simp only [poolStep]
      cases hget : out.get? k with
      | none => exact ⟨hsum, hmem⟩
      | some cap =>
          have hcapmem : cap ∈ out := List.get?_mem hget
          have hcapsup := hmem cap hcapmem
          obtain ⟨hle, herase⟩ := sum_eraseIdx_of_get? out k cap hget
          have hcappos := supported_pos cap hcapsup
          simp only at hsum
          dsimp only
          refine ⟨?_, ?_⟩
          · unfold retrieve
            split_ifs with hz hns hcle
            · omega
            · simp [hcapsup] at hns
            · simp only [herase]
              omega
            · omega
          · intro c hc
            exact hmem c (mem_of_mem_eraseIdx out k c hc)
  | setMax m => exact ⟨hsum, hmem⟩

theorem registry_has_filter_ne (l : List Nat) (fd : Nat) :
    registry_has (l.filter (fun x => x != fd)) fd = false := by
  induction l with
  | nil => rfl
  | cons a t ih =>
      by_cases h : a = fd
      · simp [List.filter_cons, h, ih]
      · simp only [List.filter_cons]
        have : (a != fd) = true := by simp [h]
        simp only [this, if_true]
        simp only [registry_has, if_neg h]
        exact ih

/-! ## Claim theorems -/

/-- C1: during send_in_loop on a Connected connection, a failed write_to_buf
(here: appending 600000 bytes to a 1 MiB chunk already holding 500000 bytes,
so growth past the 1 MiB ceiling is rejected and write_to_buf returns -1) is
claimed to collapse to handle_close so that on_closed fires.  Evaluating the
embedded code at this input shows the -1 is discarded: the state stays
kConnected, no close callback fires, the write event is enabled and the buffer
is unchanged. -/
theorem c1_send_in_loop_discards_write_to_buf_failure :
    sendInLoop poolAllocCap
      { conn := { state := State.kConnected, closeCbCount := 0, fdCloseCount := 0 },
        outBuf := some { capacity := 1048576, length := 500000, head := 0 },
        writeEnabled := false } 600000 (.wrote 0)
    = ({ conn := { state := State.kConnected, closeCbCount := 0, fdCloseCount := 0 },
         outBuf := some { capacity := 1048576, length := 500000, head := 0 },
         writeEnabled := true }, some (-1)) := by
  decide

/-- C2: a server constructed with io_thread_count = 0 is claimed to create no
worker loops and dispatch every connection to the base loop.  Evaluating the
embedded constructor and start logic with hardware_concurrency = 8 shows the
pool maps 0 to 8, start spawns 8 worker loops, and get_next_loop then hands out
a pool worker, not the base loop. -/
theorem c2_zero_io_threads_creates_hardware_concurrency_workers :
    pool_thread_count_ctor (server_io_thread_count 0) 8 = 8
    ∧ pool_threads_after_start (pool_thread_count_ctor (server_io_thread_count 0) 8) = 8
    ∧ server_get_next_loop
        (pool_threads_after_start (pool_thread_count_ctor (server_io_thread_count 0) 8)) 0
        = LoopRef.worker 0
    ∧ server_get_next_loop
        (pool_threads_after_start (pool_thread_count_ctor (server_io_thread_count 0) 8)) 0
        ≠ LoopRef.base := by
  decide

/-- C4 counterexample: from the reachable state kConnected, handle_close moves the
state straight to kDisconnected, and the edge kConnected → kDisconnected is not
among the edges listed by the claim (the chain plus the early-failure edge), so
not every transition the code takes is a listed edge. -/
theorem c4_connected_to_disconnected_edge_not_listed :
    (connect_established initialConn).state = State.kConnected
    ∧ (connStep (connect_established initialConn) ConnEvent.close).state
        = State.kDisconnected
    ∧ listedEdge State.kConnected State.kDisconnected = false := by
  decide

/-- C4 (amended): the state atom only ever moves forward along the order
Connecting < Connected < Disconnecting < Disconnected, and every transition the
code takes is one of Connecting → Connected (connect_established),
Connected → Disconnecting (shutdownInLoop), Connected → Disconnected
(handle_close); there are no backward edges. -/
theorem c4_state_moves_forward_only :
    ((connect_established initialConn).state = State.kConnected
      ∧ takenEdge State.kConnecting State.kConnected = true)
    ∧ (∀ (c : Conn) (e : ConnEvent),
        (connStep c e).state = c.state ∨ takenEdge c.state (connStep c e).state = true)
    ∧ (∀ (c : Conn) (e : ConnEvent), stateRank c.state ≤ stateRank (connStep c e).state) := by
  refine ⟨⟨rfl, rfl⟩, ?_, ?_⟩ <;>
    · intro c e
      rcases c with ⟨s, a, b⟩
      cases e <;> cases s <;>
        simp [connStep, shutdownInLoop, handle_close, takenEdge, stateRank]

/-- C9: pop on a buffer holding a chunk with fewer buffered bytes than requested
raises and leaves the buffer unchanged; pop with a non-positive length, and pop
on a chunk-less buffer, are silent no-ops. -/
theorem c9_pop_raises_beyond_length_and_noops_otherwise :
    (∀ (c : Chunk) (len : Int), 0 < len → c.length < len.toNat →
        buffer_pop (some c) len = PopResult.raised (some c))
    ∧ (∀ (buf : Option Chunk) (len : Int), len ≤ 0 → buffer_pop buf len = PopResult.ok buf)
    ∧ (∀ len : Int, buffer_pop none len = PopResult.ok none) := by
  refine ⟨?_, ?_, fun len => rfl⟩
  · intro c len hpos hlt
    simp only [buffer_pop]
    rw [if_neg (by omega), if_pos hlt]
  · intro buf len hle
    cases buf with
    | none => rfl
    | some c => simp [buffer_pop, hle]

/-- C9 witness: popping 5 bytes from a chunk holding 2 raises with the buffer
unchanged. -/
theorem c9_pop_raises_beyond_length_and_noops_otherwise_witness :
    buffer_pop (some { capacity := 4096, length := 2, head := 0 }) 5
      = PopResult.raised (some { capacity := 4096, length := 2, head := 0 }) :=
  c9_pop_raises_beyond_length_and_noops_otherwise.1
    { capacity := 4096, length := 2, head := 0 } 5 (by decide) (by decide)

/-- C3: handle_close compare-and-swaps kConnected → kDisconnected and is a no-op
from any other initial state, so over any interleaving of shutdown, close-path
and write events after establishment, the close callback fires at most once and
the descriptor is closed at most once. -/
theorem c3_close_at_most_once :
    (∀ c : Conn, c.state ≠ State.kConnected → handle_close c = c)
    ∧ (∀ c : Conn, c.state = State.kConnected →
        handle_close c = { state := State.kDisconnected,
                           closeCbCount := c.closeCbCount + 1,
                           fdCloseCount := c.fdCloseCount + 1 })
    ∧ (∀ evs : List ConnEvent,
        (connRun evs (connect_established initialConn)).closeCbCount ≤ 1
        ∧ (connRun evs (connect_established initialConn)).fdCloseCount ≤ 1) := by
  refine ⟨?_, ?_, ?_⟩
  · intro c h
    simp [handle_close, h]
  · intro c h
    simp [handle_close, h]
  · intro evs
    have hinv : connInv (connect_established initialConn) := by
      refine ⟨by decide, by decide, fun _ => ⟨rfl, rfl⟩⟩
    obtain ⟨h1, h2, _⟩ := connRun_preserves_inv evs (connect_established initialConn) hinv
    exact ⟨h1, h2⟩

/-- C3 witness: handle_close from kDisconnecting is a no-op, and after the event
sequence shutdown, close, close, close from an established connection the close
callback fired at most once and the descriptor closed at most once. -/
theorem c3_close_at_most_once_witness :
    handle_close { state := State.kDisconnecting, closeCbCount := 0, fdCloseCount := 0 }
      = { state := State.kDisconnecting, closeCbCount := 0, fdCloseCount := 0 }
    ∧ ((connRun [ConnEvent.shutdown, ConnEvent.close, ConnEvent.close, ConnEvent.close]
          (connect_established initialConn)).closeCbCount ≤ 1
       ∧ (connRun [ConnEvent.shutdown, ConnEvent.close, ConnEvent.close, ConnEvent.close]
          (connect_established initialConn)).fdCloseCount ≤ 1) :=
  ⟨c3_close_at_most_once.1
      { state := State.kDisconnecting, closeCbCount := 0, fdCloseCount := 0 } (by decide),
   c3_close_at_most_once.2.2
      [ConnEvent.shutdown, ConnEvent.close, ConnEvent.close, ConnEvent.close]⟩

/-- C6 counterexample: lowering the cap to 0 with set_max_capacity and then
allocating 4096 bytes succeeds through the free-list fast path (which performs
no cap check), leaving current_usage_bytes = 4096 above max_capacity_bytes = 0,
so the claimed bound usage ≤ cap fails. -/
theorem c6_usage_can_exceed_max_capacity :
    (runPool [PoolOp.setMax 0, PoolOp.alloc 4096]).1.usage = 4096
    ∧ (runPool [PoolOp.setMax 0, PoolOp.alloc 4096]).1.maxCap = 0
    ∧ (runPool [PoolOp.setMax 0, PoolOp.alloc 4096]).2 = [4096]
    ∧ ¬ (runPool [PoolOp.setMax 0, PoolOp.alloc 4096]).1.usage
          ≤ (runPool [PoolOp.setMax 0, PoolOp.alloc 4096]).1.maxCap := by
  decide

/-- C6 (amended): after any sequence of alloc_chunk, retrieve and
set_max_capacity operations, current_usage_bytes equals the sum of the
capacities of the chunks handed out and not yet returned (all of which are size
classes); the cap is enforced only on the slow path: an allocation that finds
its free list empty and would push usage beyond max_capacity_bytes fails with
the exhaustion error and leaves the pool unchanged, while free-list allocations
perform no cap check. -/
theorem c6_usage_equals_outstanding_sum :
    (∀ ops : List PoolOp,
        (runPool ops).1.usage = (runPool ops).2.sum
        ∧ ∀ c ∈ (runPool ops).2, is_supported_size c = true)
    ∧ (∀ (st : PoolState) (n : Nat),
        freeCount st (find_suitable_size n) = 0 →
        st.maxCap < st.usage + find_suitable_size n →
        alloc_chunk st n = (none, st)) := by
  constructor
  · intro ops
    have hinv : poolInv (runPool ops) := by
      unfold runPool
      induction ops using List.reverseRecOn with
      | nil => exact ⟨rfl, by intro c hc; simp at hc⟩
      | append_singleton t op ih =>
          rw [List.foldl_append, List.foldl_cons, List.foldl_nil]
          exact poolStep_preserves_inv _ op ih
    exact hinv
  · intro st n hfree hcap
    unfold alloc_chunk
    split_ifs with h1 h2 h3
    · rfl
    · rfl
    · omega
    · rfl

/-- C6 witness: a slow-path allocation over the cap fails and leaves the pool
unchanged, and the empty operation sequence satisfies the accounting
equation. -/
theorem c6_usage_equals_outstanding_sum_witness :
    alloc_chunk { free := [], usage := 0, maxCap := 0 } 4096
      = (none, { free := [], usage := 0, maxCap := 0 })
    ∧ (runPool []).1.usage = (runPool []).2.sum :=
  ⟨c6_usage_equals_outstanding_sum.2 { free := [], usage := 0, maxCap := 0 } 4096
      (by decide) (by decide),
   (c6_usage_equals_outstanding_sum.1 []).1⟩

/-- C7: classification of a failed accept: EINTR retries, EAGAIN and EWOULDBLOCK
leave the loop, EMFILE and ENFILE run the idle-fd rescue (close the rescue
descriptor, accept the pending connection and close it at once when one is
produced, reopen /dev/null) and continue accepting rather than breaking, and
any other errno logs and breaks. -/
theorem c7_accept_errno_classification (hasLoop : Bool) :
    (∀ rest, do_accept hasLoop (AcceptRes.fail .eintr :: rest) = do_accept hasLoop rest)
    ∧ (∀ rest, do_accept hasLoop (AcceptRes.fail .eagain :: rest) = [])
    ∧ (∀ rest, do_accept hasLoop (AcceptRes.fail .ewouldblock :: rest) = [])
    ∧ (∀ fd rest, do_accept hasLoop (AcceptRes.fail .emfile :: AcceptRes.conn fd :: rest)
        = AcceptAction.closeIdleFd :: AcceptAction.closeRescued fd
            :: AcceptAction.reopenIdleFd :: do_accept hasLoop rest)
    ∧ (∀ e rest, do_accept hasLoop (AcceptRes.fail .emfile :: AcceptRes.fail e :: rest)
        = AcceptAction.closeIdleFd :: AcceptAction.reopenIdleFd :: do_accept hasLoop rest)
    ∧ (∀ fd rest, do_accept hasLoop (AcceptRes.fail .enfile :: AcceptRes.conn fd :: rest)
        = AcceptAction.closeIdleFd :: AcceptAction.closeRescued fd
            :: AcceptAction.reopenIdleFd :: do_accept hasLoop rest)
    ∧ (∀ e rest, do_accept hasLoop (AcceptRes.fail .enfile :: AcceptRes.fail e :: rest)
        = AcceptAction.closeIdleFd :: AcceptAction.reopenIdleFd :: do_accept hasLoop rest)
    ∧ (∀ rest, do_accept hasLoop (AcceptRes.fail .other :: rest) = [AcceptAction.logBreak]) := by
  refine ⟨?_, ?_, ?_, fun fd rest => rfl, fun e rest => rfl, fun fd rest => rfl,
    fun e rest => rfl, ?_⟩ <;>
    · intro rest
      cases rest with
      | nil => rfl
      | cons r t =>
          cases r with
          | conn fd => rfl
          | fail e => cases e <;> rfl

/-- C8: on a tick, each slot entry with remaining ticks left is decremented and
kept, each remaining entry idle for at least T is recorded as expired and
removed from the slot while the others are kept (stated as the filterMap of the
per-entry fate written from the spec sentence), and afterwards the current slot
index advances to (current + 1) mod the wheel size. -/
theorem c8_tick_processes_slot_and_advances (now T : Int) :
    (∀ entries : List (Option TWEntry),
        process_slot now T entries
        = (entries.filterMap (fun o => o.bind (tw_keep_spec now T)),
           entries.filterMap (fun o => o.bind (tw_expire_spec now T))))
    ∧ (∀ st : WheelState,
        (wheel_tick st now T).1.current_slot = (st.current_slot + 1) % st.wheel_size
        ∧ (wheel_tick st now T).2
            = (st.slots.getD st.current_slot []).filterMap
                (fun o => o.bind (tw_expire_spec now T))) := by
  have hslot : ∀ entries : List (Option TWEntry),
      process_slot now T entries
      = (entries.filterMap (fun o => o.bind (tw_keep_spec now T)),
         entries.filterMap (fun o => o.bind (tw_expire_spec now T))) := by
    intro entries
    induction entries with
    | nil => rfl
    | cons o rest ih =>
        cases o with
        | none => simpa [process_slot, List.filterMap_cons] using ih
        | some e =>
            simp only [process_slot, ih, List.filterMap_cons, Option.bind,
              tw_keep_spec, tw_expire_spec]
            split_ifs <;> rfl
  refine ⟨hslot, fun st => ⟨rfl, ?_⟩⟩
  simp [wheel_tick, hslot]

/-- C10: synchronizing an empty mask deletes the descriptor from the kernel
notifier and erases the channel from the registry (so a channel with an empty
mask is never registered after update_channel); a non-empty mask on an absent
channel adds it to both (when the kernel add succeeds); a non-empty mask on a
present channel modifies the kernel entry and leaves the registry unchanged;
disable_all synchronizes the empty mask. -/
theorem c10_update_channel_syncs_registry_and_kernel :
    (∀ (st : LoopReg) (fd : Nat) (aOk mOk : Bool),
        update_channel st fd 0 aOk mOk
          = { registry := st.registry.filter (fun x => x != fd),
              kernel := kernel_del st.kernel fd }
        ∧ registry_has (update_channel st fd 0 aOk mOk).registry fd = false)
    ∧ (∀ (st : LoopReg) (fd evs : Nat) (mOk : Bool), evs ≠ 0 →
        registry_has st.registry fd = false →
        registry_has (update_channel st fd evs true mOk).registry fd = true
        ∧ kernel_lookup (update_channel st fd evs true mOk).kernel fd = some evs)
    ∧ (∀ (st : LoopReg) (fd evs : Nat) (aOk : Bool), evs ≠ 0 →
        registry_has st.registry fd = true →
        (update_channel st fd evs aOk true).registry = st.registry
        ∧ (update_channel st fd evs aOk true).kernel = kernel_mod st.kernel fd evs)
    ∧ disable_all_mask = 0 := by
  refine ⟨?_, ?_, ?_, rfl⟩
  · intro st fd aOk mOk
    refine ⟨by simp [update_channel], ?_⟩
    simp only [update_channel, if_pos rfl]
    exact registry_has_filter_ne st.registry fd
  · intro st fd evs mOk hevs habs
    simp only [update_channel, if_neg hevs, habs]
    constructor
    · simp [registry_has]
    · simp [kernel_lookup, List.find?_cons]
  · intro st fd evs aOk hevs hpres
    simp only [update_channel, if_neg hevs, hpres]
    exact ⟨rfl, rfl⟩

/-- C5 counterexample: with a 16 KiB chunk holding 13000 bytes (3384 free),
read_from_fd returns true from its space-ensuring step after expanding into a
chunk of the same 16 KiB class, so the read syscall is issued with only 3384
bytes free, less than the default slab size of 4096 the claim promises. -/
theorem c5_read_does_not_ensure_default_slab_free :
    read_from_fd poolAllocCap (some { capacity := 16384, length := 13000, head := 0 }) 0
        [SysRes.ok 100]
      = some { ret := 100, buf := some { capacity := 16384, length := 13100, head := 0 },
               freeAtRead := 3384, toRead := 3384 }
    ∧ 3384 < 4096 := by
  decide

/-- C5 (amended): read_from_fd allocates lazily on first use (at least 4096
bytes free) and compacts when head > 0 (the ensured chunk has head 0); in
general the space-ensuring step only guarantees free space of at least 4096
minus the space that was already free, with the full 4096 guaranteed when the
buffer was unallocated or already had 4096 free; it reads at most 64 KiB in one
syscall, retries the syscall on signal interruption, and returns the positive
byte count on success, 0 on EOF, 0 on would-block, and -1 on any other
error. -/
theorem c5_read_from_fd_space_and_return_codes (alloc : Nat → Option Nat)
    (halloc : ∀ n cap, alloc n = some cap → cap = find_suitable_size n ∧ 0 < cap) :
    (∀ (buf : Option Chunk) (c : Chunk),
        ensure_space_available alloc buf DEFAULT_BUFFER_SIZE = (true, some c) →
        c.head = 0
        ∧ 4096 - input_free_space buf ≤ c.capacity - c.length
        ∧ (buf = none → 4096 ≤ c.capacity - c.length)
        ∧ (4096 ≤ input_free_space buf → 4096 ≤ c.capacity - c.length))
    ∧ (∀ io, readLoop (SysRes.eintr :: io) = readLoop io)
    ∧ (∀ (buf : Option Chunk) (fd : Int) (io : List SysRes) (o : ReadOutcome),
        read_from_fd alloc buf fd io = some o → o.toRead ≤ 65536)
    ∧ (∀ (buf : Option Chunk) (fd : Int) (io : List SysRes) (o : ReadOutcome),
        read_from_fd alloc buf fd io = some o → 0 < o.toRead →
          (readLoop io = some SysRes.err → o.ret = -1)
          ∧ (readLoop io = some SysRes.eagain → o.ret = 0)
          ∧ (readLoop io = some SysRes.ewouldblock → o.ret = 0)
          ∧ (readLoop io = some (SysRes.ok 0) → o.ret = 0)
          ∧ (∀ n : Nat, 0 < n → readLoop io = some (SysRes.ok n) → o.ret = (n : Int))) := by
  have hens : ∀ (buf : Option Chunk) (c : Chunk),
      ensure_space_available alloc buf DEFAULT_BUFFER_SIZE = (true, some c) →
      c.head = 0
      ∧ 4096 - input_free_space buf ≤ c.capacity - c.length
      ∧ (buf = none → 4096 ≤ c.capacity - c.length)
      ∧ (4096 ≤ input_free_space buf → 4096 ≤ c.capacity - c.length) := by
    intro buf c h
    have hmax : (max DEFAULT_BUFFER_SIZE DEFAULT_BUFFER_SIZE).toNat = 4096 := by decide
    have htoNat : DEFAULT_BUFFER_SIZE.toNat = 4096 := by decide
    unfold ensure_space_available at h
    rw [if_neg (by decide), if_neg (by decide)] at h
    simp only [hmax, htoNat] at h
    split at h
    · -- buf = none: lazy initial allocation of the default slab
      split at h
      · rename_i cap halc
        obtain ⟨hcap, hcappos⟩ := halloc _ cap halc
        have h4096 : find_suitable_size 4096 = 4096 := by decide
        injection h with h1 h2
        injection h2 with h2
        subst h2
        refine ⟨rfl, ?_, ?_, ?_⟩ <;> simp [input_free_space, hcap, h4096]
      · simp at h
    · -- buf = some c0
      rename_i c0
      have hA : input_free_space (some c0) = c0.adjust.capacity - c0.adjust.length := by
        simp [input_free_space, Chunk.adjust_capacity, Chunk.adjust_length]
      split_ifs at h with hle hbig
      · injection h with h1 h2
        injection h2 with h2
        subst h2
        refine ⟨Chunk.adjust_head c0, ?_, ?_, ?_⟩
        · rw [hA]; omega
        · intro hx; simp at hx
        · rw [hA]; intro _; omega
      · simp at h
      · unfold expand_buffer at h
        split at h
        · simp at h
        · rename_i cap halc
          injection h with h1 h2
          injection h2 with h2
          subst h2
          obtain ⟨hcap, hcappos⟩ := halloc _ cap halc
          have hge : c0.adjust.length
              + (4096 - (c0.adjust.capacity - c0.adjust.length)) ≤ cap := by
            have hne : find_suitable_size
                (c0.adjust.length + (4096 - (c0.adjust.capacity - c0.adjust.length)))
                ≠ 0 := by omega
            have := (find_suitable_size_spec _ hne).2
            omega
          refine ⟨rfl, ?_, ?_, ?_⟩
          · rw [hA]
            simp only
            omega
          · intro hx; simp at hx
          · rw [hA]
            intro hx
            omega
  have hretry : ∀ io, readLoop (SysRes.eintr :: io) = readLoop io := fun io => rfl
  have hread : ∀ (c : Chunk) (io : List SysRes) (o : ReadOutcome),
      read_with_buffer c io = some o →
      o.toRead ≤ 65536
      ∧ (0 < o.toRead →
          (readLoop io = some SysRes.err → o.ret = -1)
          ∧ (readLoop io = some SysRes.eagain → o.ret = 0)
          ∧ (readLoop io = some SysRes.ewouldblock → o.ret = 0)
          ∧ (readLoop io = some (SysRes.ok 0) → o.ret = 0)
          ∧ (∀ n : Nat, 0 < n → readLoop io = some (SysRes.ok n) → o.ret = (n : Int))) := by
    intro c io o h
    unfold read_with_buffer at h
    split_ifs at h with hz
    · injection h with h
      subst h
      exact ⟨by simp, by intro hpos; simp at hpos⟩
    · split at h
      · simp at h
      · rename_i n hrl
        split_ifs at h with hn
        · injection h with h
          subst h
          refine ⟨by simp [Nat.min_le_right], fun _ => ⟨?_, ?_, ?_, ?_, ?_⟩⟩
          · intro hx; rw [hrl] at hx; exact absurd hx (by simp)
          · intro hx; rw [hrl] at hx; exact absurd hx (by simp)
          · intro hx; rw [hrl] at hx; exact absurd hx (by simp)
          · intro hx
            rw [hrl] at hx
            injection hx with hx
            injection hx with hx
            omega
          · intro m hm hx
            rw [hrl] at hx
            injection hx with hx
            injection hx with hx
            simp [hx]
        · injection h with h
          subst h
          refine ⟨by simp [Nat.min_le_right], fun _ => ⟨?_, ?_, ?_, ?_, ?_⟩⟩
          · intro hx; rw [hrl] at hx; exact absurd hx (by simp)
          · intro _; rfl
          · intro _; rfl
          · intro _; rfl
          · intro m hm hx
            rw [hrl] at hx
            injection hx with hx
            injection hx with hx
            omega
      · simp at h
      · rename_i hrl
        injection h with h
        subst h
        refine ⟨by simp [Nat.min_le_right], fun _ => ⟨?_, ?_, ?_, ?_, ?_⟩⟩
        · intro hx; rw [hrl] at hx; exact absurd hx (by simp)
        · intro _; rfl
        · intro _; rfl
        · intro _; rfl
        · intro m hm hx
          rw [hrl] at hx
          exact absurd hx (by simp)
      · rename_i hrl
        injection h with h
        subst h
        refine ⟨by simp [Nat.min_le_right], fun _ => ⟨?_, ?_, ?_, ?_, ?_⟩⟩
        · intro hx; rw [hrl] at hx; exact absurd hx (by simp)
        · intro _; rfl
        · intro _; rfl
        · intro _; rfl
        · intro m hm hx
          rw [hrl] at hx
          exact absurd hx (by simp)
      · rename_i hrl
        injection h with h
        subst h
        refine ⟨by simp [Nat.min_le_right], fun _ => ⟨?_, ?_, ?_, ?_, ?_⟩⟩
        · intro _; rfl
        · intro hx; rw [hrl] at hx; exact absurd hx (by simp)
        · intro hx; rw [hrl] at hx; exact absurd hx (by simp)
        · intro hx; rw [hrl] at hx; exact absurd hx (by simp)
        · intro m hm hx
          rw [hrl] at hx
          exact absurd hx (by simp)
  have hglue : ∀ (buf : Option Chunk) (fd : Int) (io : List SysRes) (o : ReadOutcome),
      read_from_fd alloc buf fd io = some o →
      o.toRead = 0 ∨ ∃ c, read_with_buffer c io = some o := by
    intro buf fd io o h
    unfold read_from_fd at h
    split_ifs at h with hfd
    · injection h with h
      subst h
      exact Or.inl rfl
    · cases hens2 : ensure_space_available alloc buf DEFAULT_BUFFER_SIZE with
      | mk ok buf2 =>
          rw [hens2] at h
          cases ok with
          | false =>
              injection h with h
              subst h
              exact Or.inl rfl
          | true =>
              cases buf2 with
              | none =>
                  injection h with h
                  subst h
                  exact Or.inl rfl
              | some c => exact Or.inr ⟨c, h⟩
  refine ⟨hens, hretry, ?_, ?_⟩
  · intro buf fd io o h
    rcases hglue buf fd io o h with hz | ⟨c, hc⟩
    · omega
    · exact (hread c io o hc).1
  · intro buf fd io o h hpos
    rcases hglue buf fd io o h with hz | ⟨c, hc⟩
    · omega
    · exact (hread c io o hc).2 hpos

/-- C5 witness: a read interrupted by a signal once resolves like the uninterrupted
read (the EINTR attempt is retried away), instantiated at the pool allocator. -/
theorem c5_read_from_fd_space_and_return_codes_witness :
    readLoop [SysRes.eintr] = readLoop [] :=
  (c5_read_from_fd_space_and_return_codes poolAllocCap
      (fun n cap h => poolAllocCap_spec n cap h)).2.1 []

/-- C10 witness: with an empty registry, a synchronization of mask 5 for
descriptor 3 with a successful kernel add registers the channel and stores the
mask; afterwards synchronizing mask 0 removes it again. -/
theorem c10_update_channel_syncs_registry_and_kernel_witness :
    (registry_has (update_channel { registry := [], kernel := [] } 3 5 true true).registry 3
        = true
      ∧ kernel_lookup (update_channel { registry := [], kernel := [] } 3 5 true true).kernel 3
        = some 5)
    ∧ registry_has
        (update_channel { registry := [3], kernel := [(3, 5)] } 3 0 true true).registry 3
        = false :=
  ⟨c10_update_channel_syncs_registry_and_kernel.2.1
      { registry := [], kernel := [] } 3 5 true (by decide) (by decide),
   (c10_update_channel_syncs_registry_and_kernel.1
      { registry := [3], kernel := [(3, 5)] } 3 true true).2⟩

end AZH
